import Mathlib

/-!
Verification development for the ESP-AT network-module bridge
(`src/esp_at.c` of the grblHAL Plugins_misc repository).

The definitions below are a shallow embedding of the C source:
bytes are `Nat` (values 0..255 in practice), the little static state
machines become explicit state records, and the polled serial stream
becomes a list of per-iteration read results (`none` = SERIAL_NO_DATA,
list exhaustion = expiry of the tick timeout).
-/

namespace EspAt

/-- ASCII line-feed byte, `ASCII_LF`. -/
def ASCII_LF : Nat := 10

/-- ASCII carriage-return byte, `ASCII_CR`. -/
def ASCII_CR : Nat := 13

/-- Disconnect pattern `"CLOSED" ASCII_EOL` = "CLOSED\r\n" (cmds[1] in
`esp_at_receive`). -/
def closedPat : List Nat := [67, 76, 79, 83, 69, 68, 13, 10]

/-- Disconnect pattern `"+STA_DISCONNECTED:"` (cmds[2] in `esp_at_receive`). -/
def staPat : List Nat :=
  [43, 83, 84, 65, 95, 68, 73, 83, 67, 79, 78, 78, 69, 67, 84, 69, 68, 58]

/-- Disconnect pattern `"WIFI DISCONNECT" ASCII_EOL` = "WIFI DISCONNECT\r\n"
(cmds[3] in `esp_at_receive`). -/
def wifiPat : List Nat :=
  [87, 73, 70, 73, 32, 68, 73, 83, 67, 79, 78, 78, 69, 67, 84, 13, 10]

/-- The `cmds[]` table of `esp_at_receive`; entry 0 is the empty string. -/
def cmds : List (List Nat) := [[], closedPat, staPat, wifiPat]

/-- `cmds[p]` as a list of bytes (out-of-range index gives the empty list,
which is never reached by the code). -/
def cmdPat (p : Nat) : List Nat := cmds.getD p []

/-- The byte `cmds[p][i]`; reading at or past the end of the pattern yields
the C string terminator 0, exactly as dereferencing the NUL terminator does. -/
def charAt (p i : Nat) : Nat := (cmdPat p).getD i 0

/-- `cmd = c == 'C' ? 1 : (c == '+' ? 2 : 3)` from `esp_at_receive`. -/
def patOf (c : Nat) : Nat := if c = 67 then 1 else if c = 43 then 2 else 3

/-- The scanner's static state: `cmd` (active pattern index, 0 = none) and
`s` (the pattern cursor pointer; `none` models `s == NULL`, `some (p, i)`
models `s == &cmds[p][i]`). -/
structure ScanState where
  cmd : Nat
  s : Option (Nat × Nat)
deriving Repr, DecidableEq

/-- Result of one `esp_at_receive` call: the new static state, the bytes
passed to `atStream_rx_insert` (in order), and the number of times
`task_add_immediate(close_session, NULL)` was called (0 or 1). -/
structure ScanOut where
  st : ScanState
  ins : List Nat
  closes : Nat
deriving Repr, DecidableEq

/-- Scanner state at handler installation (`s = NULL`, `cmd = 0`). -/
def resetState : ScanState := ⟨0, none⟩

/-- Shallow embedding of `esp_at_receive` (src/esp_at.c lines 371-419),
one incoming byte `c`.  The C control flow is mirrored branch for branch:
opening a candidate when `s == NULL` and `c` is a registered first byte;
otherwise, when `cmd` is nonzero, advancing the cursor (`++s` happens
whenever `*s != '\0'`), replaying `cmds[cmd]` up to the cursor plus the
mismatching byte on a mismatch that is not at the terminator, scheduling
`close_session` on a line feed; otherwise inserting the byte directly and
resetting on CR/LF. -/
def esp_at_receive (st : ScanState) (c : Nat) : ScanOut :=
  if st.s = none ∧ (c = 67 ∨ c = 43 ∨ c = 87) then
    ⟨⟨patOf c, some (patOf c, 0)⟩, [], 0⟩
  else if st.cmd ≠ 0 then
    let pi := st.s.getD (0, 0)
    let mid : ScanState × List Nat :=
      if charAt pi.1 pi.2 ≠ 0 then
        if c ≠ charAt pi.1 (pi.2 + 1) then
          if charAt pi.1 (pi.2 + 1) ≠ 0 then
            (⟨0, some (pi.1, pi.2 + 1)⟩, (cmdPat st.cmd).take (pi.2 + 1) ++ [c])
          else
            (⟨st.cmd, some (pi.1, pi.2 + 1)⟩, [])
        else
          (⟨st.cmd, some (pi.1, pi.2 + 1)⟩, [])
      else
        (st, [])
    if c = ASCII_LF then ⟨⟨0, none⟩, mid.2, 1⟩ else ⟨mid.1, mid.2, 0⟩
  else
    if c = ASCII_CR ∨ c = ASCII_LF then ⟨⟨0, none⟩, [c], 0⟩ else ⟨st, [c], 0⟩

/-- Feed a byte sequence through `esp_at_receive`, collecting all inserted
bytes and all `close_session` schedulings. -/
def scanRun : ScanState → List Nat → ScanOut
  | st, [] => ⟨st, [], 0⟩
  | st, c :: rest =>
    let r1 := esp_at_receive st c
    let r2 := scanRun r1.st rest
    ⟨r2.st, r1.ins ++ r2.ins, r1.closes + r2.closes⟩

/-- The bytes currently consumed speculatively by an active candidate
(empty when no candidate is active): the first `cursor + 1` bytes of the
active pattern, which are exactly the bytes that opened and advanced the
candidate. -/
def held (st : ScanState) : List Nat :=
  if st.cmd = 0 then [] else (cmdPat st.cmd).take ((st.s.getD (0, 0)).2 + 1)

/-- Reachability invariant of the scanner state: either no candidate is
active, or `s` points into `cmds[cmd]` at a position strictly inside the
pattern. -/
def ScanInv (st : ScanState) : Prop :=
  st.cmd = 0 ∨ (1 ≤ st.cmd ∧ st.cmd ≤ 3 ∧
    ∃ i, st.s = some (st.cmd, i) ∧ i + 1 ≤ (cmdPat st.cmd).length)

/-! ## The byte ring buffer (`stream_rx_buffer_t rxbuf`) -/

/-- The receive ring buffer `rxbuf`: backing array (as a total map from
index to byte), `head`, `tail` and the `overflow` flag.  The buffer size
`N` (`RX_BUFFER_SIZE`) is kept as an explicit parameter of the operations. -/
structure StreamRxBuf where
  data : Nat → Nat
  head : Nat
  tail : Nat
  overflow : Bool

/-- `BUFNEXT` — advance of a ring-buffer index.  Modelled from the spec:
the macro itself comes from the grblHAL core headers, which are not part
of this repository; the spec describes `head`/`tail` as "indices, modulo
N", hence advance is increment modulo the buffer size. -/
def BUFNEXT (N i : Nat) : Nat := (i + 1) % N

/-- Shallow embedding of `atStream_rx_insert` (src/esp_at.c lines 230-242).
`rt` models `enqueue_realtime_command`: when it claims the byte, nothing is
stored. -/
def atStream_rx_insert (N : Nat) (rt : Nat → Bool) (rb : StreamRxBuf) (c : Nat) :
    StreamRxBuf :=
  if rt c then rb
  else
    let next_head := BUFNEXT N rb.head
    if next_head = rb.tail then { rb with overflow := true }
    else { rb with data := fun j => if j = rb.head then c else rb.data j,
                   head := next_head }

/-- Shallow embedding of `atStreamGetC` (src/esp_at.c lines 197-208):
`none` models the -1 "no data" return. -/
def atStreamGetC (N : Nat) (rb : StreamRxBuf) : Option (Nat × StreamRxBuf) :=
  if rb.tail = rb.head then none
  else some (rb.data rb.tail, { rb with tail := BUFNEXT N rb.tail })

/-- Repeatedly call `atStreamGetC` (at most `fuel` times) until it reports
no data, collecting the returned bytes. -/
def drainAll (N : Nat) : Nat → StreamRxBuf → List Nat
  | 0, _ => []
  | fuel + 1, rb =>
    match atStreamGetC N rb with
    | none => []
    | some (c, rb2) => c :: drainAll N fuel rb2

/-- Push a list of bytes through `atStream_rx_insert` in order. -/
def pushList (N : Nat) (rt : Nat → Bool) (rb : StreamRxBuf) (l : List Nat) :
    StreamRxBuf :=
  l.foldl (atStream_rx_insert N rt) rb

/-- The zero-initialised buffer (`static stream_rx_buffer_t rxbuf = {0}`). -/
def emptyBuf : StreamRxBuf := ⟨fun _ => 0, 0, 0, false⟩

/-- A buffer of size 2 already holding the single byte 5 (its one usable
slot): `head = 1`, `tail = 0`. -/
def fullBuf1 : StreamRxBuf := ⟨fun j => if j = 0 then 5 else 0, 1, 0, false⟩

/-- End-to-end delivery: feed `input` through the inline scanner from its
reset state, push every inserted byte into the (initially empty) ring
buffer of size `N` with no realtime interception, then drain it through
`atStreamGetC`. -/
def delivered (N : Nat) (input : List Nat) : List Nat :=
  drainAll N input.length
    (pushList N (fun _ => false) emptyBuf (scanRun resetState input).ins)

/-- `rb` holds exactly the pending byte queue `q` (oldest first) in a
buffer of size `N`: indices are in range, `head` sits `q.length` slots
after `tail` modulo `N`, and the backing array holds `q` starting at
`tail`. -/
def represents (N : Nat) (rb : StreamRxBuf) (q : List Nat) : Prop :=
  rb.head < N ∧ rb.tail < N ∧ q.length < N ∧
  rb.head = (rb.tail + q.length) % N ∧
  ∀ j, j < q.length → rb.data ((rb.tail + j) % N) = q.getD j 0

/-! ## Occurrence of a pattern inside a byte sequence -/

/-- `pat` occurs contiguously somewhere inside `l`. -/
def occursIn (pat l : List Nat) : Prop := ∃ a b, l = a ++ pat ++ b

/-! ## The command/response driver (`send_command`, `get_reply`)

The working buffer `char buf[130]` is a process-wide static: it retains
the bytes of earlier replies across calls.  Each call clears only
`buf[0]` (`*buf = '\0'`), and the accumulation `*s++ = c` writes no
terminator, so the concluding `strcmp(buf, "OK")` / `return buf` reads
the current accumulation followed by stale bytes of previous replies up
to the first NUL.  The buffer is therefore modelled explicitly as a total
map from index to byte, with the initial (stale) contents a parameter. -/

/-- Write byte `v` at index `i` of a buffer. -/
def wrb (f : Nat → Nat) (i v : Nat) : Nat → Nat :=
  fun j => if j = i then v else f j

/-- Read the C string stored in a buffer starting at index `i`: the bytes
up to (excluding) the first NUL, bounded by the remaining `fuel`
(`sizeof(buf) = 130` from index 0 — reading past the array would be
undefined behaviour in the C). -/
def cstrFrom (f : Nat → Nat) : Nat → Nat → List Nat
  | _, 0 => []
  | i, fuel + 1 => if f i = 0 then [] else f i :: cstrFrom f (i + 1) fuel

/-- The C string content of the working buffer (`buf` as read by `strcmp`
or by the caller of `get_reply`). -/
def cstrOf (f : Nat → Nat) : List Nat := cstrFrom f 0 130

/-- Reply accumulation loop of `send_command` (src/esp_at.c lines 269-294).
`reads` lists the successive results of `at_cmd_stream.read()` (`none` is
SERIAL_NO_DATA); exhaustion of the list models expiry of the 1000-tick
timeout.  `buf` is the working buffer (stale bytes included) and `pos` the
cursor `s - buf`; the capacity check is `s - buf >= sizeof(buf) - 1` with
`sizeof(buf) = 130`.  A line feed stores a NUL at the cursor; a completed
non-blank line or the timeout returns `!strcmp(buf, "OK")`, i.e. the
comparison of the buffer's C string against "OK". -/
def send_command_loop : List (Option Nat) → (Nat → Nat) → Nat → Bool
  | [], buf, _ => cstrOf buf == [79, 75]
  | none :: rest, buf, pos => send_command_loop rest buf pos
  | some c :: rest, buf, pos =>
    if 129 ≤ pos then false
    else if c = ASCII_LF then
      if 32 ≤ wrb buf pos 0 0 then cstrOf (wrb buf pos 0) == [79, 75]
      else send_command_loop rest (wrb (wrb buf pos 0) 0 0) 0
    else if c = ASCII_CR then send_command_loop rest buf pos
    else send_command_loop rest (wrb buf pos c) (pos + 1)

/-- The working buffer as `send_command`'s loop leaves it (same recursion
as `send_command_loop`, projected to the buffer contents and cursor). -/
def send_buf_final : List (Option Nat) → (Nat → Nat) → Nat → (Nat → Nat) × Nat
  | [], buf, pos => (buf, pos)
  | none :: rest, buf, pos => send_buf_final rest buf pos
  | some c :: rest, buf, pos =>
    if 129 ≤ pos then (buf, pos)
    else if c = ASCII_LF then
      if 32 ≤ wrb buf pos 0 0 then (wrb buf pos 0, pos)
      else send_buf_final rest (wrb (wrb buf pos 0) 0 0) 0
    else if c = ASCII_CR then send_buf_final rest buf pos
    else send_buf_final rest (wrb buf pos c) (pos + 1)

/-- Shallow embedding of `send_command` (src/esp_at.c lines 256-295): the
bytes written to the module stream (the command followed by `ASCII_EOL` =
"\r\n"), paired with the boolean result of the reply loop started on the
stale buffer with only `buf[0]` cleared. -/
def send_command (command : List Nat) (reads : List (Option Nat))
    (stale : Nat → Nat) : List Nat × Bool :=
  (command ++ [ASCII_CR, ASCII_LF], send_command_loop reads (wrb stale 0 0) 0)

/-- Reply accumulation loop of `get_reply` (src/esp_at.c lines 313-336);
same loop but without the capacity check, ending in
`return *buf ? buf : NULL` — the returned line is the buffer's C string,
not merely the bytes accumulated this call. -/
def get_reply_loop : List (Option Nat) → (Nat → Nat) → Nat → Option (List Nat)
  | [], buf, _ => if buf 0 ≠ 0 then some (cstrOf buf) else none
  | none :: rest, buf, pos => get_reply_loop rest buf pos
  | some c :: rest, buf, pos =>
    if c = ASCII_LF then
      if 32 ≤ wrb buf pos 0 0 then some (cstrOf (wrb buf pos 0))
      else get_reply_loop rest (wrb (wrb buf pos 0) 0 0) 0
    else if c = ASCII_CR then get_reply_loop rest buf pos
    else get_reply_loop rest (wrb buf pos c) (pos + 1)

/-- The working buffer as `get_reply`'s loop leaves it. -/
def get_buf_final : List (Option Nat) → (Nat → Nat) → Nat → Nat → Nat
  | [], buf, _ => buf
  | none :: rest, buf, pos => get_buf_final rest buf pos
  | some c :: rest, buf, pos =>
    if c = ASCII_LF then
      if 32 ≤ wrb buf pos 0 0 then wrb buf pos 0
      else get_buf_final rest (wrb (wrb buf pos 0) 0 0) 0
    else if c = ASCII_CR then get_buf_final rest buf pos
    else get_buf_final rest (wrb buf pos c) (pos + 1)

/-- A working buffer with no stale content. -/
def zeroBuf : Nat → Nat := fun _ => 0

/-- Stale buffer left by a previous "OK" reply: 'O','K',NUL,... -/
def staleOK : Nat → Nat :=
  fun i => if i = 0 then 79 else if i = 1 then 75 else 0

/-- Stale buffer left by a previous "ERROR" reply. -/
def staleError : Nat → Nat :=
  fun i =>
    if i = 0 then 69 else if i = 1 then 82 else if i = 2 then 82
    else if i = 3 then 79 else if i = 4 then 82 else 0

/-- Stale buffer left by a previous "WIFI GOT IP" reply. -/
def staleWifi : Nat → Nat :=
  fun i =>
    if i = 0 then 87 else if i = 1 then 73 else if i = 2 then 70
    else if i = 3 then 73 else if i = 4 then 32 else if i = 5 then 71
    else if i = 6 then 79 else if i = 7 then 84 else if i = 8 then 32
    else if i = 9 then 73 else if i = 10 then 80 else 0

/-- Outcome classification of a reply-polling run, used to state the
driver claims: either a first non-blank terminator-delimited line
completed (`line`), or the timeout expired with the given (possibly
partial, possibly empty) accumulation (`timeoutWith`), or the working
buffer capacity was hit (`overflowed`). -/
inductive ReplyScan where
  | line (l : List Nat)
  | timeoutWith (acc : List Nat)
  | overflowed
deriving Repr, DecidableEq

/-- Outcome of the `send_command` reply loop (with the 129-byte capacity
check). -/
def replyScanCap : List (Option Nat) → List Nat → ReplyScan
  | [], acc => .timeoutWith acc
  | none :: rest, acc => replyScanCap rest acc
  | some c :: rest, acc =>
    if 129 ≤ acc.length then .overflowed
    else if c = ASCII_LF then
      if 32 ≤ acc.headD 0 then .line acc
      else replyScanCap rest []
    else if c = ASCII_CR then replyScanCap rest acc
    else replyScanCap rest (acc ++ [c])

/-- Outcome of the `get_reply` reply loop (no capacity check). -/
def replyScanNoCap : List (Option Nat) → List Nat → ReplyScan
  | [], acc => .timeoutWith acc
  | none :: rest, acc => replyScanNoCap rest acc
  | some c :: rest, acc =>
    if c = ASCII_LF then
      if 32 ≤ acc.headD 0 then .line acc
      else replyScanNoCap rest []
    else if c = ASCII_CR then replyScanNoCap rest acc
    else replyScanNoCap rest (acc ++ [c])

/-! ## The teardown path (`close_session`) -/

/-- A write of control traffic to the module stream made by
`close_session`. -/
inductive ModuleWrite where
  | escape      -- `at_cmd_stream.write("+++")`
  | cipmode0    -- `send_command("AT+CIPMODE=0")`
  | cwqif       -- `send_command("AT+CWQIF")`
deriving Repr, DecidableEq

/-- The externally visible state touched by `close_session`:
whether `session_stream` is non-NULL, whether the scanner is installed as
the realtime handler, the chronological list of module writes, and
counters for `stream_disconnect` calls, `at_cmd_stream.reset_read_buffer()`
calls and `task_add_delayed(await_connect, ...)` schedulings. -/
structure EspAtState where
  session_stream : Bool
  scanner_installed : Bool
  writes : List ModuleWrite
  disconnects : Nat
  flushes : Nat
  await_scheduled : Nat
deriving Repr, DecidableEq

/-- Shallow embedding of `close_session` (src/esp_at.c lines 339-369).
`modem_ok` is the boolean reply of `send_command("AT+CIPMODE=0")` and `ap`
the `esp_at_settings.mode == WiFiMode_AP` test; `send_command`'s internal
stream traffic is abstracted to the recorded write and its boolean reply.
The `ETHERNET_ENABLE` block is conditionally compiled out.  The `data`
out-parameter is dropped (no caller in the claims passes it). -/
def close_session (modem_ok ap : Bool) (st : EspAtState) : EspAtState :=
  let st1 :=
    if st.session_stream then
      { st with disconnects := st.disconnects + 1, session_stream := false }
    else st
  let st2 :=
    { st1 with scanner_installed := false,
               writes := st1.writes ++ [ModuleWrite.escape, ModuleWrite.cipmode0]
                 ++ (if modem_ok ∧ ap then [ModuleWrite.cwqif] else []),
               await_scheduled := st1.await_scheduled +
                 (if modem_ok then 1 else 0) }
  { st2 with flushes := st2.flushes + 1 }

/-! ## The prompt-ack poll (`await_connected`) -/

/-- Final transition of the prompt-ack poll: either the scanner handler
`esp_at_receive` got installed (Bridging reached) or `close_session` ran. -/
inductive ConnOutcome where
  | installed
  | closed
deriving Repr, DecidableEq

/-- Shallow embedding of the `await_connected` retry chain (src/esp_at.c
lines 421-435).  `reads k` is the result of `at_cmd_stream.read()` in the
k-th invocation (-1 = no data); the second argument is the invocation
index, the third the current value of the `timeout` counter (10 at entry
from `await_connect`).  Reading the prompt '>' installs `esp_at_receive`;
`--timeout == 0` invokes `close_session`; otherwise the task re-arms
itself.  The fuel-0 case is unreachable from the initial value 10. -/
def await_connected_run (reads : Nat → Int) : Nat → Nat → ConnOutcome
  | _, 0 => .closed
  | k, b + 1 =>
    if reads k = 62 then .installed
    else if b = 0 then .closed
    else await_connected_run reads (k + 1) b

example : scanRun resetState closedPat = ⟨resetState, [], 1⟩ := by decide
example : scanRun resetState wifiPat = ⟨resetState, [], 1⟩ := by decide
example : scanRun resetState [67, 88] = ⟨⟨0, some (1, 1)⟩, [67, 88], 0⟩ := by decide
example : scanRun resetState [67, 10] = ⟨⟨0, none⟩, [67, 10], 1⟩ := by decide
example : scanRun resetState ([67, 88] ++ closedPat) =
    ⟨⟨0, none⟩, [67, 88] ++ closedPat, 0⟩ := by decide

/-! ## Ring buffer lemmas -/

lemma mod_add_cancel_iff {N t m : Nat} (ht : t < N) :
    (t + m) % N = t ↔ N ∣ m := by
  constructor
  · intro h
    have h2 : (t + m) % N = (t + 0) % N := by
      rw [h, Nat.add_zero, Nat.mod_eq_of_lt ht]
    have h3 : m ≡ 0 [MOD N] := Nat.ModEq.add_left_cancel' t h2
    exact (Nat.modEq_zero_iff_dvd).mp h3
  · rintro ⟨k, rfl⟩
    rw [Nat.add_mul_mod_self_left, Nat.mod_eq_of_lt ht]

lemma represents_full_iff {N : Nat} {rb : StreamRxBuf} {q : List Nat}
    (hN : 2 ≤ N) (hrep : represents N rb q) :
    BUFNEXT N rb.head = rb.tail ↔ q.length = N - 1 := by
  obtain ⟨hh, ht, hq, hhead, hdata⟩ := hrep
  have hN0 : 0 < N := by omega
  have h1 : BUFNEXT N rb.head = (rb.tail + (q.length + 1)) % N := by
    simp [BUFNEXT, hhead, Nat.mod_add_mod, Nat.add_assoc]
  rw [h1, mod_add_cancel_iff ht]
  constructor
  · intro hdvd
    have := Nat.le_of_dvd (by omega) hdvd
    omega
  · intro h
    have : q.length + 1 = N := by omega
    simp [this]

lemma rx_insert_full {N : Nat} {rb : StreamRxBuf} (c : Nat)
    (hfull : BUFNEXT N rb.head = rb.tail) :
    atStream_rx_insert N (fun _ => false) rb c = { rb with overflow := true } := by
  simp [atStream_rx_insert, hfull]

lemma rx_insert_not_full_eq {N : Nat} {rb : StreamRxBuf} (c : Nat)
    (hnotfull : BUFNEXT N rb.head ≠ rb.tail) :
    atStream_rx_insert N (fun _ => false) rb c =
      { data := fun j => if j = rb.head then c else rb.data j,
        head := BUFNEXT N rb.head, tail := rb.tail, overflow := rb.overflow } := by
  simp [atStream_rx_insert, hnotfull]

lemma rx_insert_not_full {N : Nat} {rb : StreamRxBuf} {q : List Nat} (c : Nat)
    (hN : 2 ≤ N) (hrep : represents N rb q) (hlen : q.length + 1 < N) :
    represents N (atStream_rx_insert N (fun _ => false) rb c) (q ++ [c]) ∧
      (atStream_rx_insert N (fun _ => false) rb c).overflow = rb.overflow := by
  obtain ⟨hh, ht, hq, hhead, hdata⟩ := hrep
  have hN0 : 0 < N := by omega
  have hnotfull : BUFNEXT N rb.head ≠ rb.tail := by
    intro h
    have := (represents_full_iff hN ⟨hh, ht, hq, hhead, hdata⟩).mp h
    omega
  rw [rx_insert_not_full_eq c hnotfull]
  refine ⟨⟨?_, ht, by simp; omega, ?_, ?_⟩, rfl⟩
  · simp [BUFNEXT, Nat.mod_lt _ hN0]
  · simp [BUFNEXT, hhead, Nat.mod_add_mod, Nat.add_assoc]
  · intro j hj
    simp only [List.length_append, List.length_singleton] at hj
    by_cases hjq : j < q.length
    · have hne : (rb.tail + j) % N ≠ rb.head := by
        intro h
        rw [hhead] at h
        have hmodeq : j ≡ q.length [MOD N] := Nat.ModEq.add_left_cancel' rb.tail h
        have : j % N = q.length % N := hmodeq
        rw [Nat.mod_eq_of_lt (by omega), Nat.mod_eq_of_lt (by omega)] at this
        omega
      simp only [hne, if_neg, ite_false]
      rw [hdata j hjq]
      rw [List.getD_append _ _ _ _ hjq]
    · have hj' : j = q.length := by omega
      subst hj'
      rw [← hhead]
      have : (q ++ [c]).getD q.length 0 = c := by
        simp [List.getD_append_right, Nat.le_refl]
      rw [this]
      simp

lemma pushList_represents {N : Nat} (hN : 2 ≤ N) :
    ∀ (l q : List Nat) (rb : StreamRxBuf), represents N rb q →
      q.length + l.length < N →
      represents N (pushList N (fun _ => false) rb l) (q ++ l) ∧
        (pushList N (fun _ => false) rb l).overflow = rb.overflow
  | [], q, rb, hrep, _ => by simpa [pushList] using hrep
  | c :: l', q, rb, hrep, hlen => by
    have hstep := rx_insert_not_full c hN hrep (by simp at hlen; omega)
    have hrec := pushList_represents hN l' (q ++ [c])
      (atStream_rx_insert N (fun _ => false) rb c) hstep.1
      (by simp at hlen ⊢; omega)
    constructor
    · have : q ++ c :: l' = (q ++ [c]) ++ l' := by simp
      rw [this]
      simpa [pushList] using hrec.1
    · simp only [pushList, List.foldl_cons] at hrec ⊢
      rw [hrec.2, hstep.2]

lemma pushList_on_full {N : Nat} (hN : 2 ≤ N) :
    ∀ (l : List Nat) (rb : StreamRxBuf) (q : List Nat), represents N rb q →
      q.length = N - 1 →
      (pushList N (fun _ => false) rb l).head = rb.head ∧
      (pushList N (fun _ => false) rb l).tail = rb.tail ∧
      (pushList N (fun _ => false) rb l).data = rb.data ∧
      represents N (pushList N (fun _ => false) rb l) q
  | [], rb, q, hrep, _ => ⟨rfl, rfl, rfl, hrep⟩
  | c :: l', rb, q, hrep, hfull => by
    have hfull' : BUFNEXT N rb.head = rb.tail :=
      (represents_full_iff hN hrep).mpr hfull
    have hstep : atStream_rx_insert N (fun _ => false) rb c =
        { rb with overflow := true } := rx_insert_full c hfull'
    have hrep1 : represents N { rb with overflow := true } q := by
      obtain ⟨hh, ht, hq, hhead, hdata⟩ := hrep
      exact ⟨hh, ht, hq, hhead, hdata⟩
    have hrec := pushList_on_full hN l' { rb with overflow := true } q hrep1 hfull
    simpa [pushList, hstep] using hrec

lemma drainAll_represents {N : Nat} (hN : 2 ≤ N) :
    ∀ (q : List Nat) (rb : StreamRxBuf) (fuel : Nat), represents N rb q →
      q.length ≤ fuel → drainAll N fuel rb = q
  | [], rb, fuel, hrep, _ => by
    obtain ⟨hh, ht, hq, hhead, _⟩ := hrep
    have hte : rb.tail = rb.head := by
      rw [hhead]
      simp [Nat.mod_eq_of_lt ht]
    cases fuel with
    | zero => simp [drainAll]
    | succ f => simp [drainAll, atStreamGetC, hte]
  | c :: q', rb, fuel, hrep, hfuel => by
    obtain ⟨hh, ht, hq, hhead, hdata⟩ := hrep
    have hN0 : 0 < N := by omega
    have hne : rb.tail ≠ rb.head := by
      intro h
      rw [hhead] at h
      have : N ∣ (c :: q').length := by
        have := (mod_add_cancel_iff ht).mp h.symm
        exact this
      have := Nat.le_of_dvd (by simp) this
      simp at this hq
      omega
    obtain ⟨f, rfl⟩ : ∃ f, fuel = f + 1 := by
      cases fuel with
      | zero => simp at hfuel
      | succ f => exact ⟨f, rfl⟩
    have hdc : rb.data rb.tail = c := by
      have := hdata 0 (by simp)
      simpa [Nat.mod_eq_of_lt ht] using this
    have hrep' : represents N { rb with tail := BUFNEXT N rb.tail } q' := by
      refine ⟨hh, by simp [BUFNEXT, Nat.mod_lt _ hN0], by simp at hq; omega, ?_, ?_⟩
      · simp only [BUFNEXT, hhead, Nat.mod_add_mod]
        congr 1
        simp
        omega
      · intro j hj
        simp only [BUFNEXT, Nat.mod_add_mod]
        have : (rb.tail + 1 + j) = rb.tail + (j + 1) := by omega
        rw [this, hdata (j + 1) (by simp; omega)]
        simp [List.getD_cons_succ]
    rw [drainAll]
    simp only [atStreamGetC, if_neg hne, hdc]
    rw [drainAll_represents hN q' _ f hrep' (by simp at hfuel; omega)]

lemma represents_empty {N : Nat} (hN : 2 ≤ N) : represents N emptyBuf [] := by
  refine ⟨?_, ?_, ?_, ?_, ?_⟩
  · simp only [emptyBuf]
    omega
  · simp only [emptyBuf]
    omega
  · simp only [List.length_nil]
    omega
  · simp [emptyBuf]
  · intro j hj
    simp at hj

/-! ## Pattern table facts -/

lemma cmdPat_len {p : Nat} (h1 : 1 ≤ p) (h3 : p ≤ 3) : 8 ≤ (cmdPat p).length := by
  interval_cases p <;> decide

lemma cmdPat_len_le {p : Nat} (h3 : p ≤ 3) : (cmdPat p).length ≤ 18 := by
  interval_cases p <;> decide

lemma charAt_ne_zero {p i : Nat} (h3 : p ≤ 3) (hi : i < (cmdPat p).length) :
    charAt p i ≠ 0 := by
  have hb : ∀ p' < 4, ∀ i' < 18, i' < (cmdPat p').length → charAt p' i' ≠ 0 := by
    decide
  have hle := cmdPat_len_le h3
  exact hb p (by omega) i (by omega) hi

lemma charAt_lf_last {p i : Nat} (h3 : p ≤ 3) (hi : i < (cmdPat p).length)
    (hlf : charAt p i = 10) : i + 1 = (cmdPat p).length := by
  have hb : ∀ p' < 4, ∀ i' < 18, i' < (cmdPat p').length → charAt p' i' = 10 →
      i' + 1 = (cmdPat p').length := by
    decide
  have hle := cmdPat_len_le h3
  exact hb p (by omega) i (by omega) hi hlf

lemma cmdPat_first {c : Nat} (hc : c = 67 ∨ c = 43 ∨ c = 87) :
    (cmdPat (patOf c)).take 1 = [c] ∧ 1 ≤ patOf c ∧ patOf c ≤ 3 ∧
      1 ≤ (cmdPat (patOf c)).length := by
  rcases hc with rfl | rfl | rfl <;> decide

lemma take_succ_charAt {p i : Nat} (hi : i < (cmdPat p).length) :
    (cmdPat p).take (i + 1) = (cmdPat p).take i ++ [charAt p i] := by
  rw [List.take_succ]
  have h1 : (cmdPat p)[i]? = some ((cmdPat p).getD i 0) := by
    rw [List.getD_eq_getElem _ _ hi, List.getElem?_eq_getElem hi]
  rw [h1]
  rfl

/-! ## Occurrence facts -/

lemma occursIn_append_left {pat l : List Nat} (x : List Nat) (h : occursIn pat l) :
    occursIn pat (x ++ l) := by
  obtain ⟨a, b, rfl⟩ := h
  exact ⟨x ++ a, b, by simp⟩

lemma occursIn_self_append (pat b : List Nat) : occursIn pat (pat ++ b) :=
  ⟨[], b, by simp⟩

lemma not_occursIn_of_short {pat l : List Nat} (h : l.length < pat.length) :
    ¬ occursIn pat l := by
  rintro ⟨a, b, rfl⟩
  simp only [List.length_append] at h
  omega

/-! ## Scanner step lemmas -/

lemma scanRun_nil (st : ScanState) : scanRun st [] = ⟨st, [], 0⟩ := rfl

lemma scanRun_cons (st : ScanState) (c : Nat) (rest : List Nat) :
    scanRun st (c :: rest) =
      ⟨(scanRun (esp_at_receive st c).st rest).st,
       (esp_at_receive st c).ins ++ (scanRun (esp_at_receive st c).st rest).ins,
       (esp_at_receive st c).closes + (scanRun (esp_at_receive st c).st rest).closes⟩ :=
  rfl

lemma scanRun_append (a : List Nat) :
    ∀ (st : ScanState) (b : List Nat),
      (scanRun st (a ++ b)).st = (scanRun (scanRun st a).st b).st ∧
      (scanRun st (a ++ b)).ins =
        (scanRun st a).ins ++ (scanRun (scanRun st a).st b).ins ∧
      (scanRun st (a ++ b)).closes =
        (scanRun st a).closes + (scanRun (scanRun st a).st b).closes := by
  induction a with
  | nil => intro st b; simp [scanRun_nil]
  | cons c a ih =>
    intro st b
    rw [List.cons_append, scanRun_cons, scanRun_cons]
    obtain ⟨h1, h2, h3⟩ := ih (esp_at_receive st c).st b
    refine ⟨h1, ?_, ?_⟩
    · simp [h2]
    · simp [h3]
      omega

lemma receive_open {st : ScanState} {c : Nat} (hs : st.s = none)
    (hc : c = 67 ∨ c = 43 ∨ c = 87) :
    esp_at_receive st c = ⟨⟨patOf c, some (patOf c, 0)⟩, [], 0⟩ := by
  simp [esp_at_receive, hs, hc]

lemma receive_pass {st : ScanState} {c : Nat} (hcmd : st.cmd = 0)
    (h : ¬ (st.s = none ∧ (c = 67 ∨ c = 43 ∨ c = 87))) :
    esp_at_receive st c =
      if c = ASCII_CR ∨ c = ASCII_LF then ⟨⟨0, none⟩, [c], 0⟩
      else ⟨st, [c], 0⟩ := by
  simp [esp_at_receive, h, hcmd]

lemma receive_match {p i c : Nat} (hp : p ≠ 0) (h0 : charAt p i ≠ 0)
    (hc : c = charAt p (i + 1)) (hlf : c ≠ ASCII_LF) :
    esp_at_receive ⟨p, some (p, i)⟩ c = ⟨⟨p, some (p, i + 1)⟩, [], 0⟩ := by
  simp [esp_at_receive, hp, h0, hc, hlf, ASCII_LF] at hlf ⊢
  simp [hlf]

lemma receive_match_lf {p i c : Nat} (hp : p ≠ 0) (h0 : charAt p i ≠ 0)
    (hc : c = charAt p (i + 1)) (hlf : c = ASCII_LF) :
    esp_at_receive ⟨p, some (p, i)⟩ c = ⟨⟨0, none⟩, [], 1⟩ := by
  have h10 : charAt p (i + 1) = 10 := by rw [← hc, hlf, ASCII_LF]
  simp [esp_at_receive, hp, h0, h10, hlf, ASCII_LF]

lemma receive_mismatch {p i c : Nat} (hp : p ≠ 0) (h0 : charAt p i ≠ 0)
    (hc : c ≠ charAt p (i + 1)) (h1 : charAt p (i + 1) ≠ 0) (hlf : c ≠ ASCII_LF) :
    esp_at_receive ⟨p, some (p, i)⟩ c =
      ⟨⟨0, some (p, i + 1)⟩, (cmdPat p).take (i + 1) ++ [c], 0⟩ := by
  simp [esp_at_receive, hp, h0, hc, h1, hlf, ASCII_LF] at hlf ⊢
  simp [hlf]

lemma receive_mismatch_lf {p i c : Nat} (hp : p ≠ 0) (h0 : charAt p i ≠ 0)
    (hc : c ≠ charAt p (i + 1)) (h1 : charAt p (i + 1) ≠ 0) (hlf : c = ASCII_LF) :
    esp_at_receive ⟨p, some (p, i)⟩ c =
      ⟨⟨0, none⟩, (cmdPat p).take (i + 1) ++ [c], 1⟩ := by
  have h10 : (10 : Nat) ≠ charAt p (i + 1) := by
    simpa [hlf, ASCII_LF] using hc
  simp [esp_at_receive, hp, h0, h10, h1, hlf, ASCII_LF]

/-- After "+STA_DISCONNECTED:" is fully matched (cursor on its last byte,
index 17), any non-LF byte is consumed silently and the cursor moves to
the terminator position. -/
lemma swallow_step_17 (c : Nat) (hc : c ≠ 10) :
    esp_at_receive ⟨2, some (2, 17)⟩ c = ⟨⟨2, some (2, 18)⟩, [], 0⟩ := by
  have hlf : c ≠ ASCII_LF := by simpa [ASCII_LF] using hc
  by_cases hc0 : c = 0
  · subst hc0
    decide
  · have h58 : charAt 2 17 = 58 := by decide
    have h0 : charAt 2 18 = 0 := by decide
    simp [esp_at_receive, h58, h0, hc0, hlf]

/-- With the cursor on the terminator of "+STA_DISCONNECTED:", any non-LF
byte is consumed silently and the state is unchanged. -/
lemma swallow_step_18 (c : Nat) (hc : c ≠ 10) :
    esp_at_receive ⟨2, some (2, 18)⟩ c = ⟨⟨2, some (2, 18)⟩, [], 0⟩ := by
  have hlf : c ≠ ASCII_LF := by simpa [ASCII_LF] using hc
  have h0 : charAt 2 18 = 0 := by decide
  simp [esp_at_receive, h0, hlf]

/-- From the fully matched "+STA_DISCONNECTED:" state, an LF-free byte
sequence followed by a line feed is swallowed entirely, scheduling exactly
one `close_session` and resetting the scanner. -/
lemma swallow_run :
    ∀ (mid : List Nat), (10 : Nat) ∉ mid →
      ∀ st : ScanState, (st = ⟨2, some (2, 17)⟩ ∨ st = ⟨2, some (2, 18)⟩) →
        scanRun st (mid ++ [10]) = ⟨resetState, [], 1⟩
  | [], _, st, hst => by
    rcases hst with rfl | rfl
    · decide
    · decide
  | c :: mid, hmem, st, hst => by
    have hc : c ≠ 10 := by
      intro h
      subst h
      exact hmem (List.mem_cons_self _ _)
    have hstep : esp_at_receive st c = ⟨⟨2, some (2, 18)⟩, [], 0⟩ := by
      rcases hst with rfl | rfl
      · exact swallow_step_17 c hc
      · exact swallow_step_18 c hc
    have hmem' : (10 : Nat) ∉ mid := fun h => hmem (List.mem_cons_of_mem c h)
    have hrec := swallow_run mid hmem' ⟨2, some (2, 18)⟩ (Or.inr rfl)
    rw [List.cons_append, scanRun_cons, hstep]
    simp [hrec]

/-! ## Scanner completeness -/

lemma held_zero {st : ScanState} (h : st.cmd = 0) : held st = [] := by
  simp [held, h]

lemma held_active {p i : Nat} (hp : p ≠ 0) :
    held ⟨p, some (p, i)⟩ = (cmdPat p).take (i + 1) := by
  simp [held, hp]

/-- Core bookkeeping of the inline scanner: processing any input from an
invariant-respecting state keeps `inserted ++ currently-held = consumed`,
as long as no full disconnect pattern occurs in the combined
held-plus-input byte sequence. -/
lemma scanRun_complete :
    ∀ (input : List Nat) (st : ScanState), ScanInv st →
      (∀ p, 1 ≤ p → p ≤ 3 → ¬ occursIn (cmdPat p) (held st ++ input)) →
      (scanRun st input).ins ++ held (scanRun st input).st = held st ++ input ∧
        ScanInv (scanRun st input).st
  | [], st, hinv, _ => by
    rw [scanRun_nil]
    exact ⟨by simp, hinv⟩
  | c :: rest, st, hinv, hocc => by
    rw [scanRun_cons]
    rcases hinv with hcmd | ⟨hp1, hp3, i, hs, hilen⟩
    · -- no candidate is active
      have hheld : held st = [] := held_zero hcmd
      by_cases hopen : st.s = none ∧ (c = 67 ∨ c = 43 ∨ c = 87)
      · -- a candidate opens; the byte is consumed speculatively
        rw [receive_open hopen.1 hopen.2]
        obtain ⟨htake, hq1, hq3, hqlen⟩ := cmdPat_first hopen.2
        have hpne : patOf c ≠ 0 := by omega
        have hinv1 : ScanInv ⟨patOf c, some (patOf c, 0)⟩ :=
          Or.inr ⟨hq1, hq3, 0, rfl,
            show 0 + 1 ≤ (cmdPat (patOf c)).length by omega⟩
        have hheld1 : held ⟨patOf c, some (patOf c, 0)⟩ = [c] := by
          rw [held_active hpne]
          exact htake
        have hocc1 : ∀ p, 1 ≤ p → p ≤ 3 →
            ¬ occursIn (cmdPat p) (held ⟨patOf c, some (patOf c, 0)⟩ ++ rest) := by
          intro p ha hb
          rw [hheld1]
          have := hocc p ha hb
          rw [hheld] at this
          simpa using this
        obtain ⟨hins, hinv2⟩ := scanRun_complete rest _ hinv1 hocc1
        refine ⟨?_, hinv2⟩
        rw [hheld]
        simp only [List.nil_append]
        rw [hins, hheld1]
        rfl
      · -- passthrough: the byte goes straight to the ring buffer
        rw [receive_pass hcmd hopen]
        have hocc1 : ∀ p, 1 ≤ p → p ≤ 3 → ¬ occursIn (cmdPat p) rest := by
          intro p ha hb hoc
          apply hocc p ha hb
          rw [hheld]
          simpa using occursIn_append_left [c] hoc
        by_cases hcr : c = ASCII_CR ∨ c = ASCII_LF
        · rw [if_pos hcr]
          obtain ⟨hins, hinv2⟩ := scanRun_complete rest ⟨0, none⟩ (Or.inl rfl)
            (by simpa [held_zero] using hocc1)
          refine ⟨?_, hinv2⟩
          rw [hheld]
          simp only [List.nil_append]
          rw [show held (⟨0, none⟩ : ScanState) = [] from rfl] at hins
          simp only [List.nil_append] at hins
          simp [hins]
        · rw [if_neg hcr]
          obtain ⟨hins, hinv2⟩ := scanRun_complete rest st (Or.inl hcmd)
            (by simpa [hheld] using hocc1)
          refine ⟨?_, hinv2⟩
          rw [hheld] at hins ⊢
          simp only [List.nil_append] at hins ⊢
          simp [hins]
    · -- an active candidate ⟨cmd0, some (cmd0, i)⟩
      obtain ⟨cmd0, s0⟩ := st
      simp only at hs hp1 hp3 hilen
      subst hs
      have hp : cmd0 ≠ 0 := by omega
      have hheld : held ⟨cmd0, some (cmd0, i)⟩ = (cmdPat cmd0).take (i + 1) :=
        held_active hp
      by_cases hfull : i + 1 = (cmdPat cmd0).length
      · -- the full pattern is already held: it occurs in the input
        exfalso
        apply hocc cmd0 hp1 hp3
        rw [hheld, hfull, List.take_length]
        exact occursIn_self_append _ _
      · have hi1 : i + 1 < (cmdPat cmd0).length := by omega
        have hi0 : i < (cmdPat cmd0).length := by omega
        have h0 : charAt cmd0 i ≠ 0 := charAt_ne_zero hp3 hi0
        have h1 : charAt cmd0 (i + 1) ≠ 0 := charAt_ne_zero hp3 hi1
        by_cases hmatch : c = charAt cmd0 (i + 1)
        · by_cases hlf : c = ASCII_LF
          · -- a matching LF completes the pattern: it occurs in the input
            exfalso
            have h10 : charAt cmd0 (i + 1) = 10 := by rw [← hmatch, hlf, ASCII_LF]
            have hfin : i + 1 + 1 = (cmdPat cmd0).length := charAt_lf_last hp3 hi1 h10
            apply hocc cmd0 hp1 hp3
            have hrw : held ⟨cmd0, some (cmd0, i)⟩ ++ c :: rest = cmdPat cmd0 ++ rest := by
              rw [hheld]
              have hstep : (cmdPat cmd0).take (i + 1) ++ [c] = cmdPat cmd0 := by
                rw [hmatch, ← take_succ_charAt hi1, hfin, List.take_length]
              calc (cmdPat cmd0).take (i + 1) ++ c :: rest
                  = ((cmdPat cmd0).take (i + 1) ++ [c]) ++ rest := by simp
                _ = cmdPat cmd0 ++ rest := by rw [hstep]
            rw [hrw]
            exact occursIn_self_append _ _
          · -- plain advance of the cursor
            rw [receive_match hp h0 hmatch hlf]
            have hinv1 : ScanInv ⟨cmd0, some (cmd0, i + 1)⟩ :=
              Or.inr ⟨hp1, hp3, i + 1, rfl,
                show i + 1 + 1 ≤ (cmdPat cmd0).length by omega⟩
            have hheld1 : held ⟨cmd0, some (cmd0, i + 1)⟩ =
                (cmdPat cmd0).take (i + 1) ++ [c] := by
              rw [held_active hp, take_succ_charAt hi1, hmatch]
            have hocc1 : ∀ p, 1 ≤ p → p ≤ 3 →
                ¬ occursIn (cmdPat p) (held ⟨cmd0, some (cmd0, i + 1)⟩ ++ rest) := by
              intro p ha hb hoc
              apply hocc p ha hb
              rw [hheld]
              rw [hheld1] at hoc
              simpa using hoc
            obtain ⟨hins, hinv2⟩ := scanRun_complete rest _ hinv1 hocc1
            refine ⟨?_, hinv2⟩
            simp only [List.nil_append]
            rw [hins, hheld1, hheld]
            simp
        · -- mismatch: replay the held bytes plus the mismatching byte
          have hocc1 : ∀ p, 1 ≤ p → p ≤ 3 → ¬ occursIn (cmdPat p) rest := by
            intro p ha hb hoc
            apply hocc p ha hb
            rw [hheld]
            have h2 : occursIn (cmdPat p)
                (((cmdPat cmd0).take (i + 1) ++ [c]) ++ rest) :=
              occursIn_append_left _ hoc
            simpa using h2
          by_cases hlf : c = ASCII_LF
          · rw [receive_mismatch_lf hp h0 hmatch h1 hlf]
            obtain ⟨hins, hinv2⟩ := scanRun_complete rest ⟨0, none⟩ (Or.inl rfl)
              (by simpa [held_zero] using hocc1)
            refine ⟨?_, hinv2⟩
            rw [show held (⟨0, none⟩ : ScanState) = [] from rfl] at hins
            simp only [List.nil_append] at hins
            rw [hheld]
            simp [hins]
          · rw [receive_mismatch hp h0 hmatch h1 hlf]
            obtain ⟨hins, hinv2⟩ := scanRun_complete rest ⟨0, some (cmd0, i + 1)⟩
              (Or.inl rfl) (by simpa [held_zero] using hocc1)
            refine ⟨?_, hinv2⟩
            rw [show held (⟨0, some (cmd0, i + 1)⟩ : ScanState) = [] from rfl] at hins
            simp only [List.nil_append] at hins
            rw [hheld]
            simp [hins]

/-! ## Command/response driver characterisations -/

/-- Reading the C string of a buffer that holds the byte list `l` starting
at index `i` with a NUL right after it yields `l` truncated at any
embedded NUL. -/
lemma cstrFrom_spec :
    ∀ (l : List Nat) (f : Nat → Nat) (i fuel : Nat),
      (∀ j, j < l.length → f (i + j) = l.getD j 0) → f (i + l.length) = 0 →
      l.length < fuel →
      cstrFrom f i fuel = l.takeWhile (fun b => b != 0)
  | [], f, i, fuel, _, h0, hfuel => by
    obtain ⟨g, rfl⟩ : ∃ g, fuel = g + 1 := ⟨fuel - 1, by omega⟩
    simp only [List.length_nil, Nat.add_zero] at h0
    simp [cstrFrom, h0]
  | b :: l', f, i, fuel, hagree, h0, hfuel => by
    obtain ⟨g, rfl⟩ : ∃ g, fuel = g + 1 := ⟨fuel - 1, by omega⟩
    have hb : f i = b := by
      have := hagree 0 (by simp)
      simpa using this
    by_cases hb0 : b = 0
    · subst hb0
      simp [cstrFrom, hb]
    · have hrec : cstrFrom f (i + 1) g = l'.takeWhile (fun b => b != 0) := by
        refine cstrFrom_spec l' f (i + 1) g ?_ ?_ ?_
        · intro j hj
          have := hagree (j + 1) (by simp; omega)
          rw [show i + 1 + j = i + (j + 1) by omega]
          simpa using this
        · rw [show i + 1 + l'.length = i + (b :: l').length by simp; omega]
          exact h0
        · simp at hfuel
          omega
      simp [cstrFrom, hb, hb0, hrec]

/-- Bundled correspondence between `send_command_loop` (buffer view) and
the accumulation classifier `replyScanCap`, given that the buffer agrees
with the accumulation below the cursor and holds a NUL at index 0 whenever
the accumulation is empty: a completed first non-blank line `l` makes the
result `strcmp`-equality of `l` (truncated at an embedded NUL) with "OK";
a capacity violation makes it false; on timeout the result is the
comparison of the final buffer's C string — accumulation prefix plus stale
tail — with "OK", and is false when nothing was accumulated. -/
lemma send_loop_spec :
    ∀ (reads : List (Option Nat)) (buf : Nat → Nat) (acc : List Nat),
      (∀ j, j < acc.length → buf j = acc.getD j 0) →
      (acc = [] → buf 0 = 0) →
      acc.length ≤ 129 →
      (∀ l, replyScanCap reads acc = ReplyScan.line l →
        send_command_loop reads buf acc.length =
          (l.takeWhile (fun b => b != 0) == [79, 75])) ∧
      (replyScanCap reads acc = ReplyScan.overflowed →
        send_command_loop reads buf acc.length = false) ∧
      (∀ a, replyScanCap reads acc = ReplyScan.timeoutWith a →
        (a = [] → send_command_loop reads buf acc.length = false) ∧
        send_command_loop reads buf acc.length =
          (cstrOf (send_buf_final reads buf acc.length).1 == [79, 75]) ∧
        (∀ j, j < a.length →
          (send_buf_final reads buf acc.length).1 j = a.getD j 0))
  | [], buf, acc, hagree, hempty, hle => by
    refine ⟨?_, ?_, ?_⟩
    · intro l hl
      simp [replyScanCap] at hl
    · intro hl
      simp [replyScanCap] at hl
    · intro a ha
      have haeq : a = acc := by
        simp [replyScanCap] at ha
        exact ha.symm
      subst haeq
      refine ⟨?_, rfl, ?_⟩
      · intro hnil
        have hb0 : buf 0 = 0 := hempty hnil
        have hc : cstrOf buf = [] := by
          rw [cstrOf, show cstrFrom buf 0 130 =
            (if buf 0 = 0 then [] else buf 0 :: cstrFrom buf 1 129) from rfl,
            if_pos hb0]
        simp [send_command_loop, hc]
      · intro j hj
        exact hagree j hj
  | none :: rest, buf, acc, hagree, hempty, hle => by
    simp only [replyScanCap, send_command_loop, send_buf_final]
    exact send_loop_spec rest buf acc hagree hempty hle
  | some c :: rest, buf, acc, hagree, hempty, hle => by
    by_cases hcap : 129 ≤ acc.length
    · refine ⟨?_, ?_, ?_⟩
      · intro l hl
        simp [replyScanCap, hcap] at hl
      · intro _
        simp [send_command_loop, hcap]
      · intro a ha
        simp [replyScanCap, hcap] at ha
    · have hblankeq : wrb buf acc.length 0 0 = acc.headD 0 := by
        rcases acc with _ | ⟨b, acc'⟩
        · simp [wrb]
        · have h0 : buf 0 = b := by
            have := hagree 0 (by simp)
            simpa using this
          simp only [wrb, List.length_cons]
          rw [if_neg (by omega)]
          simpa using h0
      by_cases hlfc : c = ASCII_LF
      · by_cases hblank : 32 ≤ acc.headD 0
        · -- the first non-blank line completes here
          have hcs : cstrOf (wrb buf acc.length 0) =
              acc.takeWhile (fun b => b != 0) := by
            refine cstrFrom_spec acc (wrb buf acc.length 0) 0 130 ?_ ?_ (by omega)
            · intro j hj
              simp only [Nat.zero_add, wrb]
              rw [if_neg (by omega)]
              exact hagree j hj
            · simp [wrb]
          refine ⟨?_, ?_, ?_⟩
          · intro l hl
            simp only [replyScanCap, if_neg hcap, if_pos hlfc, if_pos hblank] at hl
            injection hl with hlacc
            subst hlacc
            simp only [send_command_loop, if_neg hcap, if_pos hlfc,
              hblankeq, if_pos hblank]
            rw [hcs]
          · intro hl
            simp only [replyScanCap, if_neg hcap, if_pos hlfc, if_pos hblank] at hl
            simp at hl
          · intro a ha
            simp only [replyScanCap, if_neg hcap, if_pos hlfc, if_pos hblank] at ha
            simp at ha
        · -- blank line: reset the accumulation, clear buf[0]
          have hrec := send_loop_spec rest (wrb (wrb buf acc.length 0) 0 0) []
            (by intro j hj; simp at hj) (fun _ => by simp [wrb]) (by simp)
          refine ⟨?_, ?_, ?_⟩
          · intro l hl
            simp only [replyScanCap, if_neg hcap, if_pos hlfc, if_neg hblank] at hl
            simp only [send_command_loop, if_neg hcap, if_pos hlfc,
              hblankeq, if_neg hblank]
            exact hrec.1 l hl
          · intro hl
            simp only [replyScanCap, if_neg hcap, if_pos hlfc, if_neg hblank] at hl
            simp only [send_command_loop, if_neg hcap, if_pos hlfc,
              hblankeq, if_neg hblank]
            exact hrec.2.1 hl
          · intro a ha
            simp only [replyScanCap, if_neg hcap, if_pos hlfc, if_neg hblank] at ha
            simp only [send_command_loop, send_buf_final, if_neg hcap,
              if_pos hlfc, hblankeq, if_neg hblank]
            exact hrec.2.2 a ha
      · by_cases hcrc : c = ASCII_CR
        · have hrec := send_loop_spec rest buf acc hagree hempty hle
          refine ⟨?_, ?_, ?_⟩
          · intro l hl
            simp only [replyScanCap, if_neg hcap, if_neg hlfc, if_pos hcrc] at hl
            simp only [send_command_loop, if_neg hcap, if_pos hcrc, if_neg hlfc]
            exact hrec.1 l hl
          · intro hl
            simp only [replyScanCap, if_neg hcap, if_neg hlfc, if_pos hcrc] at hl
            simp only [send_command_loop, if_neg hcap, if_pos hcrc, if_neg hlfc]
            exact hrec.2.1 hl
          · intro a ha
            simp only [replyScanCap, if_neg hcap, if_neg hlfc, if_pos hcrc] at ha
            simp only [send_command_loop, send_buf_final, if_neg hcap,
              if_pos hcrc, if_neg hlfc]
            exact hrec.2.2 a ha
        · -- ordinary data byte: store it at the cursor
          have hagree2 : ∀ j, j < (acc ++ [c]).length →
              wrb buf acc.length c j = (acc ++ [c]).getD j 0 := by
            intro j hj
            simp only [List.length_append, List.length_cons, List.length_nil] at hj
            by_cases hjl : j < acc.length
            · simp only [wrb]
              rw [if_neg (by omega), hagree j hjl,
                List.getD_append _ _ _ _ hjl]
            · have hje : j = acc.length := by omega
              subst hje
              simp only [wrb, if_pos rfl]
              rw [List.getD_append_right _ _ _ _ (Nat.le_refl _)]
              simp
          have hrec := send_loop_spec rest (wrb buf acc.length c) (acc ++ [c])
            hagree2 (by intro h; simp at h) (by simp; omega)
          have hlen : (acc ++ [c]).length = acc.length + 1 := by simp
          rw [hlen] at hrec
          refine ⟨?_, ?_, ?_⟩
          · intro l hl
            simp only [replyScanCap, if_neg hcap, if_neg hlfc, if_neg hcrc] at hl
            simp only [send_command_loop, if_neg hcap, if_neg hlfc, if_neg hcrc]
            exact hrec.1 l hl
          · intro hl
            simp only [replyScanCap, if_neg hcap, if_neg hlfc, if_neg hcrc] at hl
            simp only [send_command_loop, if_neg hcap, if_neg hlfc, if_neg hcrc]
            exact hrec.2.1 hl
          · intro a ha
            simp only [replyScanCap, if_neg hcap, if_neg hlfc, if_neg hcrc] at ha
            simp only [send_command_loop, send_buf_final, if_neg hcap,
              if_neg hlfc, if_neg hcrc]
            exact hrec.2.2 a ha

/-- Bundled correspondence between `get_reply_loop` (buffer view) and the
accumulation classifier `replyScanNoCap`: a completed first non-blank line
`l` (fitting the buffer) is returned truncated at any embedded NUL; on
timeout the result is NULL exactly when the accumulation is empty or
starts with a NUL, and otherwise the returned line is the final buffer's C
string, of which the accumulation is only a prefix. -/
lemma get_loop_spec :
    ∀ (reads : List (Option Nat)) (buf : Nat → Nat) (acc : List Nat),
      (∀ j, j < acc.length → buf j = acc.getD j 0) →
      (acc = [] → buf 0 = 0) →
      (∀ l, replyScanNoCap reads acc = ReplyScan.line l → l.length ≤ 129 →
        get_reply_loop reads buf acc.length =
          some (l.takeWhile (fun b => b != 0))) ∧
      (∀ a, replyScanNoCap reads acc = ReplyScan.timeoutWith a →
        (get_reply_loop reads buf acc.length = none ↔ a.headD 0 = 0) ∧
        (∀ j, j < a.length → get_buf_final reads buf acc.length j = a.getD j 0) ∧
        (a.headD 0 ≠ 0 →
          get_reply_loop reads buf acc.length =
            some (cstrOf (get_buf_final reads buf acc.length))))
  | [], buf, acc, hagree, hempty => by
    have hb0 : buf 0 = acc.headD 0 := by
      rcases acc with _ | ⟨b, acc'⟩
      · simpa using hempty rfl
      · have := hagree 0 (by simp)
        simpa using this
    refine ⟨?_, ?_⟩
    · intro l hl
      simp [replyScanNoCap] at hl
    · intro a ha
      have haeq : a = acc := by
        simp [replyScanNoCap] at ha
        exact ha.symm
      subst haeq
      refine ⟨?_, fun j hj => hagree j hj, ?_⟩
      · simp only [get_reply_loop, hb0]
        by_cases h : a.headD 0 = 0
        · rw [if_neg (not_not_intro h)]
          exact iff_of_true rfl h
        · rw [if_pos h]
          exact iff_of_false (by simp) h
      · intro hne
        simp only [get_reply_loop, get_buf_final, hb0]
        rw [if_pos hne]
  | none :: rest, buf, acc, hagree, hempty => by
    simp only [replyScanNoCap, get_reply_loop, get_buf_final]
    exact get_loop_spec rest buf acc hagree hempty
  | some c :: rest, buf, acc, hagree, hempty => by
    have hblankeq : wrb buf acc.length 0 0 = acc.headD 0 := by
      rcases acc with _ | ⟨b, acc'⟩
      · simp [wrb]
      · have h0 : buf 0 = b := by
          have := hagree 0 (by simp)
          simpa using this
        simp only [wrb, List.length_cons]
        rw [if_neg (by omega)]
        simpa using h0
    by_cases hlfc : c = ASCII_LF
    · by_cases hblank : 32 ≤ acc.headD 0
      · refine ⟨?_, ?_⟩
        · intro l hl hllen
          simp only [replyScanNoCap, if_pos hlfc, if_pos hblank] at hl
          injection hl with hlacc
          subst hlacc
          have hcs : cstrOf (wrb buf acc.length 0) =
              acc.takeWhile (fun b => b != 0) := by
            refine cstrFrom_spec acc (wrb buf acc.length 0) 0 130 ?_ ?_
              (by omega)
            · intro j hj
              simp only [Nat.zero_add, wrb]
              rw [if_neg (by omega)]
              exact hagree j hj
            · simp [wrb]
          simp only [get_reply_loop, if_pos hlfc, hblankeq, if_pos hblank]
          rw [hcs]
        · intro a ha
          simp only [replyScanNoCap, if_pos hlfc, if_pos hblank] at ha
          simp at ha
      · have hrec := get_loop_spec rest (wrb (wrb buf acc.length 0) 0 0) []
          (by intro j hj; simp at hj) (fun _ => by simp [wrb])
        refine ⟨?_, ?_⟩
        · intro l hl hllen
          simp only [replyScanNoCap, if_pos hlfc, if_neg hblank] at hl
          simp only [get_reply_loop, if_pos hlfc, hblankeq, if_neg hblank]
          exact hrec.1 l hl hllen
        · intro a ha
          simp only [replyScanNoCap, if_pos hlfc, if_neg hblank] at ha
          simp only [get_reply_loop, get_buf_final, if_pos hlfc, hblankeq,
            if_neg hblank]
          exact hrec.2 a ha
    · by_cases hcrc : c = ASCII_CR
      · have hrec := get_loop_spec rest buf acc hagree hempty
        refine ⟨?_, ?_⟩
        · intro l hl hllen
          simp only [replyScanNoCap, if_neg hlfc, if_pos hcrc] at hl
          simp only [get_reply_loop, if_pos hcrc, if_neg hlfc]
          exact hrec.1 l hl hllen
        · intro a ha
          simp only [replyScanNoCap, if_neg hlfc, if_pos hcrc] at ha
          simp only [get_reply_loop, get_buf_final, if_pos hcrc, if_neg hlfc]
          exact hrec.2 a ha
      · have hagree2 : ∀ j, j < (acc ++ [c]).length →
            wrb buf acc.length c j = (acc ++ [c]).getD j 0 := by
          intro j hj
          simp only [List.length_append, List.length_cons, List.length_nil] at hj
          by_cases hjl : j < acc.length
          · simp only [wrb]
            rw [if_neg (by omega), hagree j hjl,
              List.getD_append _ _ _ _ hjl]
          · have hje : j = acc.length := by omega
            subst hje
            simp only [wrb, if_pos rfl]
            rw [List.getD_append_right _ _ _ _ (Nat.le_refl _)]
            simp
        have hrec := get_loop_spec rest (wrb buf acc.length c) (acc ++ [c])
          hagree2 (by intro h; simp at h)
        have hlen : (acc ++ [c]).length = acc.length + 1 := by simp
        rw [hlen] at hrec
        refine ⟨?_, ?_⟩
        · intro l hl hllen
          simp only [replyScanNoCap, if_neg hlfc, if_neg hcrc] at hl
          simp only [get_reply_loop, if_neg hlfc, if_neg hcrc]
          exact hrec.1 l hl hllen
        · intro a ha
          simp only [replyScanNoCap, if_neg hlfc, if_neg hcrc] at ha
          simp only [get_reply_loop, get_buf_final, if_neg hlfc, if_neg hcrc]
          exact hrec.2 a ha

/-! ## Prompt-ack poll lemma -/

/-- If none of the next `b` polled reads is the prompt '>', the retry chain
ends in `close_session`. -/
lemma await_no_prompt (reads : Nat → Int) :
    ∀ (b k : Nat), (∀ j, j < b → reads (k + j) ≠ 62) →
      await_connected_run reads k b = ConnOutcome.closed := by
  intro b
  induction b with
  | zero => intro k _; rfl
  | succ b ih =>
    intro k h
    have h0 : reads k ≠ 62 := by
      have := h 0 (by omega)
      simpa using this
    rw [show await_connected_run reads k (b + 1) =
        (if reads k = 62 then ConnOutcome.installed
         else if b = 0 then ConnOutcome.closed
         else await_connected_run reads (k + 1) b) from rfl]
    rw [if_neg h0]
    by_cases hb : b = 0
    · rw [if_pos hb]
    · rw [if_neg hb]
      apply ih
      intro j hj
      rw [show k + 1 + j = k + (j + 1) by omega]
      exact h (j + 1) (by omega)

/-! ## Claim theorems -/

/-- C1 (counterexample): the single byte 'C' contains no full occurrence of
any registered disconnect pattern, yet after feeding it the scanner holds
it as a pending candidate and delivers nothing, so the delivered bytes do
not equal the input. -/
theorem C1_counterexample :
    (∀ p, 1 ≤ p → p ≤ 3 → ¬ occursIn (cmdPat p) [67]) ∧
    delivered 16 [67] = [] ∧ ([] : List Nat) ≠ [67] := by
  refine ⟨?_, by decide, by decide⟩
  intro p h1 h3
  refine not_occursIn_of_short ?_
  have := cmdPat_len h1 h3
  simp only [List.length_cons, List.length_nil]
  omega

/-- C1 (amended): for every input free of full disconnect-pattern
occurrences that leaves the scanner with no candidate in progress
(`cmd = 0` after processing), the bytes delivered through the ring buffer
and `atStreamGetC` — with no realtime interception and no overflow
(`input.length < N`) — equal the input, byte for byte and in order. -/
theorem C1_no_loss (N : Nat) (hN : 2 ≤ N) (input : List Nat)
    (hlen : input.length < N)
    (hocc : ∀ p, 1 ≤ p → p ≤ 3 → ¬ occursIn (cmdPat p) input)
    (hend : (scanRun resetState input).st.cmd = 0) :
    delivered N input = input := by
  have hmain := scanRun_complete input resetState (Or.inl rfl)
    (by simpa [held_zero] using hocc)
  have hheld : held (scanRun resetState input).st = [] := held_zero hend
  have hins : (scanRun resetState input).ins = input := by
    have h2 := hmain.1
    rw [hheld, List.append_nil] at h2
    simpa [held_zero] using h2
  unfold delivered
  rw [hins]
  have hpush := pushList_represents hN input [] emptyBuf (represents_empty hN)
    (by simpa using hlen)
  exact drainAll_represents hN input _ input.length (by simpa using hpush.1) le_rfl

/-- C1 witness: a concrete two-byte payload is delivered unchanged. -/
theorem C1_no_loss_witness : delivered 16 [65, 66] = [65, 66] := by
  apply C1_no_loss 16 (by omega) [65, 66] (by decide)
  · intro p h1 h3
    refine not_occursIn_of_short ?_
    have := cmdPat_len h1 h3
    simp only [List.length_cons, List.length_nil]
    omega
  · decide

/-- C2 (counterexample): the payload "CX" is free of pattern occurrences,
yet prepending it to one full occurrence of "CLOSED\r\n" leaves the
scanner in its post-mismatch lockout, so the occurrence schedules no
teardown at all and every byte of the pattern is inserted into the ring
buffer.  Moreover, for the registered pattern "+STA_DISCONNECTED:", a full
occurrence alone schedules no teardown either — the teardown fires only at
a later line feed, and payload bytes arriving in between (here 'A','B')
are swallowed, never inserted. -/
theorem C2_counterexample :
    (∀ p, 1 ≤ p → p ≤ 3 → ¬ occursIn (cmdPat p) [67, 88]) ∧
    (scanRun resetState ([67, 88] ++ closedPat)).closes = 0 ∧
    (scanRun resetState ([67, 88] ++ closedPat)).ins = [67, 88] ++ closedPat ∧
    (scanRun resetState staPat).closes = 0 ∧
    (scanRun resetState (staPat ++ [65, 66])).closes = 0 ∧
    (scanRun resetState (staPat ++ [65, 66])).ins = [] := by
  refine ⟨?_, by decide, by decide, by decide, by decide, by decide⟩
  intro p h1 h3
  refine not_occursIn_of_short ?_
  have := cmdPat_len h1 h3
  simp only [List.length_cons, List.length_nil]
  omega

/-- C2 (amended): for input = prefix ++ block ++ suffix, where the block is
one full occurrence of "CLOSED\r\n" or "WIFI DISCONNECT\r\n", or one full
occurrence of "+STA_DISCONNECTED:" together with the line-feed-free bytes
up to and including its terminating line feed (that pattern's teardown is
deferred to the next LF and the bytes in between are swallowed), and where
the prefix leaves the scanner back in its reset state and neither prefix
nor suffix schedules a teardown on its own: the scanner schedules
`close_session` exactly once, and the inserted bytes are exactly those
inserted for prefix and suffix — no byte of the block reaches the ring
buffer. -/
theorem C2_detection (p1 p2 blk : List Nat)
    (hblk : blk = closedPat ∨ blk = wifiPat ∨
      ∃ mid, (10 : Nat) ∉ mid ∧ blk = staPat ++ (mid ++ [10]))
    (h1st : (scanRun resetState p1).st = resetState)
    (h1c : (scanRun resetState p1).closes = 0)
    (h2c : (scanRun resetState p2).closes = 0) :
    (scanRun resetState (p1 ++ blk ++ p2)).closes = 1 ∧
    (scanRun resetState (p1 ++ blk ++ p2)).ins =
      (scanRun resetState p1).ins ++ (scanRun resetState p2).ins := by
  have hpatrun : scanRun resetState blk = ⟨resetState, [], 1⟩ := by
    rcases hblk with rfl | rfl | ⟨mid, hmid, rfl⟩
    · decide
    · decide
    · have hsta : scanRun resetState staPat = ⟨⟨2, some (2, 17)⟩, [], 0⟩ := by
        decide
      obtain ⟨hc1, hc2, hc3⟩ := scanRun_append staPat resetState (mid ++ [10])
      rw [hsta] at hc1 hc2 hc3
      simp only at hc1 hc2 hc3
      have hrun := swallow_run mid hmid ⟨2, some (2, 17)⟩ (Or.inl rfl)
      rw [hrun] at hc1 hc2 hc3
      calc scanRun resetState (staPat ++ (mid ++ [10]))
          = ⟨(scanRun resetState (staPat ++ (mid ++ [10]))).st,
             (scanRun resetState (staPat ++ (mid ++ [10]))).ins,
             (scanRun resetState (staPat ++ (mid ++ [10]))).closes⟩ := rfl
        _ = ⟨resetState, [], 1⟩ := by
            rw [hc1, hc2, hc3]
            simp
  obtain ⟨ha1, ha2, ha3⟩ := scanRun_append p1 resetState blk
  rw [h1st, hpatrun] at ha1 ha2 ha3
  simp only at ha1 ha2 ha3
  obtain ⟨hb1, hb2, hb3⟩ := scanRun_append (p1 ++ blk) resetState p2
  rw [ha1] at hb2 hb3
  constructor
  · rw [hb3, ha3, h1c, h2c]
  · rw [hb2, ha2]
    simp

/-- C2 witness: payload 'A' before and 'B' after one "CLOSED\r\n"
occurrence give exactly one teardown delivering exactly "AB"; likewise for
a "+STA_DISCONNECTED:M\n" block. -/
theorem C2_detection_witness :
    ((scanRun resetState ([65] ++ closedPat ++ [66])).closes = 1 ∧
     (scanRun resetState ([65] ++ closedPat ++ [66])).ins =
       (scanRun resetState [65]).ins ++ (scanRun resetState [66]).ins) ∧
    ((scanRun resetState ([65] ++ (staPat ++ ([77] ++ [10])) ++ [66])).closes = 1 ∧
     (scanRun resetState ([65] ++ (staPat ++ ([77] ++ [10])) ++ [66])).ins =
       (scanRun resetState [65]).ins ++ (scanRun resetState [66]).ins) :=
  ⟨C2_detection [65] [66] closedPat (Or.inl rfl)
     (by decide) (by decide) (by decide),
   C2_detection [65] [66] (staPat ++ ([77] ++ [10]))
     (Or.inr (Or.inr ⟨[77], by decide, rfl⟩))
     (by decide) (by decide) (by decide)⟩

/-- C3 (counterexample): feeding "CC" from reset, the second 'C' — the
first byte of a registered pattern — is inserted into the ring buffer as
payload and no fresh candidate is opened (`cmd` stays 0), contradicting
the claimed reprocess-as-fresh-start behaviour. -/
theorem C3_counterexample :
    (scanRun resetState [67, 67]).ins = [67, 67] ∧
    (scanRun resetState [67, 67]).ins ≠ [67] ∧
    (scanRun resetState [67, 67]).st.cmd = 0 := by decide

/-- C3 (amended): on a mismatch inside an active candidate (mismatching
byte not LF), the scanner replays every byte consumed for the candidate in
original order followed by the mismatching byte itself into the ring
buffer; the mismatching byte is not reprocessed — afterwards every
non-CR/LF byte, registered first bytes included, is inserted directly. -/
theorem C3_replay (p i c : Nat) (hp1 : 1 ≤ p) (hp3 : p ≤ 3)
    (hi : i + 1 < (cmdPat p).length) (hc : c ≠ charAt p (i + 1)) (hlf : c ≠ 10) :
    esp_at_receive ⟨p, some (p, i)⟩ c =
      ⟨⟨0, some (p, i + 1)⟩, (cmdPat p).take (i + 1) ++ [c], 0⟩ ∧
    ∀ b, b ≠ 13 → b ≠ 10 →
      esp_at_receive ⟨0, some (p, i + 1)⟩ b = ⟨⟨0, some (p, i + 1)⟩, [b], 0⟩ := by
  have hp : p ≠ 0 := by omega
  have h0 : charAt p i ≠ 0 := charAt_ne_zero hp3 (by omega)
  have h1 : charAt p (i + 1) ≠ 0 := charAt_ne_zero hp3 hi
  refine ⟨receive_mismatch hp h0 hc h1 (by simpa [ASCII_LF] using hlf), ?_⟩
  intro b hb13 hb10
  rw [receive_pass rfl (by simp)]
  rw [if_neg (by simp [ASCII_CR, ASCII_LF, hb13, hb10])]

/-- C3 witness: 'C' then mismatching 'X' replays "CX"; a following 'C' is
inserted directly with no new candidate. -/
theorem C3_replay_witness :
    esp_at_receive ⟨1, some (1, 0)⟩ 88 =
      ⟨⟨0, some (1, 1)⟩, (cmdPat 1).take (0 + 1) ++ [88], 0⟩ ∧
    esp_at_receive ⟨0, some (1, 1)⟩ 67 = ⟨⟨0, some (1, 1)⟩, [67], 0⟩ :=
  ⟨(C3_replay 1 0 88 (by decide) (by decide) (by decide) (by decide) (by decide)).1,
   (C3_replay 1 0 88 (by decide) (by decide) (by decide) (by decide) (by decide)).2
     67 (by decide) (by decide)⟩

/-- C4 (counterexample): the byte LF is not 'L', yet feeding "C" then LF
schedules the session-teardown task once (both bytes are still
delivered). -/
theorem C4_counterexample :
    (10 : Nat) ≠ 76 ∧ (scanRun resetState [67, 10]).closes = 1 ∧
    (scanRun resetState [67, 10]).ins = [67, 10] := by decide

/-- C4 (amended): for every byte b that is neither 'L' nor LF, feeding 'C'
then b from reset inserts both bytes in original order and schedules no
teardown (for b = LF the bytes are still delivered but a spurious teardown
is scheduled). -/
theorem C4_broken_candidate (b : Nat) (hb : b ≠ 76) (hlf : b ≠ 10) :
    (scanRun resetState [67, b]).ins = [67, b] ∧
    (scanRun resetState [67, b]).closes = 0 := by
  have hstep1 : esp_at_receive resetState 67 = ⟨⟨1, some (1, 0)⟩, [], 0⟩ := by
    rw [receive_open rfl (Or.inl rfl)]
    decide
  have hstep2 : esp_at_receive ⟨1, some (1, 0)⟩ b =
      ⟨⟨0, some (1, 1)⟩, (cmdPat 1).take (0 + 1) ++ [b], 0⟩ :=
    receive_mismatch (by decide) (by decide)
      (fun h => hb (by simpa [charAt, cmdPat, cmds, closedPat] using h))
      (by decide) (by simpa [ASCII_LF] using hlf)
  constructor
  · simp only [scanRun_cons, scanRun_nil, hstep1, hstep2]
    simp [cmdPat, cmds, closedPat]
  · simp only [scanRun_cons, scanRun_nil, hstep1, hstep2]

/-- C4 witness: 'C' then 'X' are both delivered with no teardown. -/
theorem C4_broken_candidate_witness :
    (scanRun resetState [67, 88]).ins = [67, 88] ∧
    (scanRun resetState [67, 88]).closes = 0 :=
  C4_broken_candidate 88 (by decide) (by decide)

/-- C5 (counterexample): starting from a live bridging session, a second
`close_session` invocation does not reproduce the end state of a single
one — it flushes the command-stream read buffer a second time and repeats
the escape/exit-passthrough writes — so the teardown path is not
idempotent as claimed. -/
theorem C5_counterexample :
    (close_session true false
        (close_session true false ⟨true, true, [], 0, 0, 0⟩)).flushes = 2 ∧
    (close_session true false ⟨true, true, [], 0, 0, 0⟩).flushes = 1 ∧
    close_session true false (close_session true false ⟨true, true, [], 0, 0, 0⟩) ≠
      close_session true false ⟨true, true, [], 0, 0, 0⟩ := by decide

/-- C5 (amended): only the stream-disconnect step of `close_session` is
guarded and hence idempotent — a second invocation performs no further
disconnect and leaves `session_stream` NULL — but the second invocation
repeats the externally visible teardown actions: it flushes the read
buffer again and re-emits the escape sequence and exit-passthrough
command. -/
theorem C5_close_session (ok ap : Bool) (st : EspAtState) :
    (close_session ok ap st).session_stream = false ∧
    (close_session ok ap (close_session ok ap st)).session_stream = false ∧
    (close_session ok ap (close_session ok ap st)).disconnects =
      (close_session ok ap st).disconnects ∧
    (close_session ok ap st).disconnects =
      st.disconnects + (if st.session_stream then 1 else 0) ∧
    (close_session ok ap (close_session ok ap st)).flushes =
      (close_session ok ap st).flushes + 1 ∧
    (close_session ok ap (close_session ok ap st)).writes ≠
      (close_session ok ap st).writes := by
  by_cases hss : st.session_stream <;>
    simp [close_session, hss]

/-- C6: ring-buffer producer semantics of `atStream_rx_insert` — a push on
a full buffer (advancing `head` would meet `tail`) only sets `overflow`
and such a buffer holds exactly N-1 bytes; a push on a non-full buffer
stores the byte at `head`, advances `head` modulo N and preserves the
queue; pushes beyond capacity never change `head`, `tail` or the stored
data. -/
theorem C6_rx_insert (N : Nat) (hN : 2 ≤ N) (rb : StreamRxBuf) (q : List Nat)
    (c : Nat) (hrep : represents N rb q) :
    (BUFNEXT N rb.head = rb.tail →
      atStream_rx_insert N (fun _ => false) rb c = { rb with overflow := true } ∧
      q.length = N - 1) ∧
    (BUFNEXT N rb.head ≠ rb.tail →
      q.length < N - 1 ∧
      represents N (atStream_rx_insert N (fun _ => false) rb c) (q ++ [c]) ∧
      (atStream_rx_insert N (fun _ => false) rb c).overflow = rb.overflow) ∧
    (∀ l, q.length = N - 1 →
      (pushList N (fun _ => false) rb l).head = rb.head ∧
      (pushList N (fun _ => false) rb l).tail = rb.tail ∧
      (pushList N (fun _ => false) rb l).data = rb.data) := by
  refine ⟨?_, ?_, ?_⟩
  · intro hfull
    exact ⟨rx_insert_full c hfull, (represents_full_iff hN hrep).mp hfull⟩
  · intro hnf
    have hlen : q.length ≠ N - 1 := fun h => hnf ((represents_full_iff hN hrep).mpr h)
    have hq : q.length < N := hrep.2.2.1
    have hlt : q.length + 1 < N := by omega
    exact ⟨by omega, (rx_insert_not_full c hN hrep hlt).1,
      (rx_insert_not_full c hN hrep hlt).2⟩
  · intro l hfull
    obtain ⟨h1, h2, h3, _⟩ := pushList_on_full hN l rb q hrep hfull
    exact ⟨h1, h2, h3⟩

/-- C6 witness: a size-2 buffer holding its one usable byte rejects a push,
setting only the overflow flag. -/
theorem C6_rx_insert_witness :
    atStream_rx_insert 2 (fun _ => false) fullBuf1 9 =
      { fullBuf1 with overflow := true } ∧
    ([5] : List Nat).length = 2 - 1 := by
  have hrep : represents 2 fullBuf1 [5] := by
    refine ⟨by decide, by decide, by decide, by decide, ?_⟩
    intro j hj
    simp only [List.length_cons, List.length_nil] at hj
    have hj0 : j = 0 := by omega
    subst hj0
    decide
  exact (C6_rx_insert 2 (by omega) fullBuf1 [5] 9 hrep).1 (by decide)

/-- C7 (amended): `send_command` emits the command line plus terminator;
when the first non-blank terminator-delimited reply line `l` completes
within the timeout it returns true iff `l` (truncated at any embedded NUL,
as `strcmp` reads it) is exactly "OK" — so "ERROR..." and any other line
give false and blank lines are skipped; a capacity violation gives false;
when the timeout expires without a completed line the result is the
comparison of the working buffer's C string — the partial accumulation
followed by stale bytes of earlier replies up to the first NUL — against
"OK" (false when nothing was accumulated), and is therefore not determined
by the current reply bytes alone. -/
theorem C7_send_command (command : List Nat) (reads : List (Option Nat))
    (stale : Nat → Nat) :
    (send_command command reads stale).1 = command ++ [ASCII_CR, ASCII_LF] ∧
    (∀ l, replyScanCap reads [] = ReplyScan.line l →
      (send_command command reads stale).2 =
        (l.takeWhile (fun b => b != 0) == [79, 75])) ∧
    (replyScanCap reads [] = ReplyScan.overflowed →
      (send_command command reads stale).2 = false) ∧
    (∀ a, replyScanCap reads [] = ReplyScan.timeoutWith a →
      (a = [] → (send_command command reads stale).2 = false) ∧
      (send_command command reads stale).2 =
        (cstrOf (send_buf_final reads (wrb stale 0 0) 0).1 == [79, 75]) ∧
      (∀ j, j < a.length →
        (send_buf_final reads (wrb stale 0 0) 0).1 j = a.getD j 0)) := by
  have h := send_loop_spec reads (wrb stale 0 0) []
    (by intro j hj; simp at hj) (fun _ => by simp [wrb]) (by simp)
  exact ⟨rfl, h.1, h.2.1, h.2.2⟩

/-- C7 witness: a clean "OK\n" reply makes `send_command` return true. -/
theorem C7_send_command_witness :
    (send_command [] [some 79, some 75, some 10] zeroBuf).2 = true := by
  have h := (C7_send_command [] [some 79, some 75, some 10] zeroBuf).2.1
    [79, 75] (by decide)
  rw [h]
  decide

/-- C7 (counterexample): with the timeout expiring and no completed line,
the result is true on a zeroed buffer after reads 'O','K' (claim demands
false), and the same reads give false when the buffer holds a stale
"ERROR" — the timeout result depends on bytes of earlier replies, not on
the accumulated reply alone. -/
theorem C7_counterexample :
    replyScanCap [some 79, some 75] [] = ReplyScan.timeoutWith [79, 75] ∧
    send_command_loop [some 79, some 75] (wrb zeroBuf 0 0) 0 = true ∧
    send_command_loop [some 79, some 75] (wrb staleError 0 0) 0 = false ∧
    replyScanCap [some 79] [] = ReplyScan.timeoutWith [79] ∧
    send_command_loop [some 79] (wrb staleOK 0 0) 0 = true := by decide

/-- C8 (amended): `get_reply` returns the first non-blank
terminator-delimited line (truncated at any embedded NUL) when one
completes within the timeout; on timeout it returns NULL exactly when the
accumulation is empty or begins with a NUL byte, and otherwise it returns
the working buffer's C string, of which the partial accumulation is only a
prefix — the rest is stale bytes of the previous reply up to the first
NUL. -/
theorem C8_get_reply (reads : List (Option Nat)) (stale : Nat → Nat) :
    (∀ l, replyScanNoCap reads [] = ReplyScan.line l → l.length ≤ 129 →
      get_reply_loop reads (wrb stale 0 0) 0 =
        some (l.takeWhile (fun b => b != 0))) ∧
    (∀ a, replyScanNoCap reads [] = ReplyScan.timeoutWith a →
      (get_reply_loop reads (wrb stale 0 0) 0 = none ↔ a.headD 0 = 0) ∧
      (∀ j, j < a.length →
        get_buf_final reads (wrb stale 0 0) 0 j = a.getD j 0) ∧
      (a.headD 0 ≠ 0 →
        get_reply_loop reads (wrb stale 0 0) 0 =
          some (cstrOf (get_buf_final reads (wrb stale 0 0) 0)))) :=
  get_loop_spec reads (wrb stale 0 0) []
    (by intro j hj; simp at hj) (fun _ => by simp [wrb])

/-- C8 witness: a clean "W\n" reply returns the line "W". -/
theorem C8_get_reply_witness :
    get_reply_loop [some 87, some 10] (wrb zeroBuf 0 0) 0 =
      some ([87].takeWhile (fun b => b != 0)) :=
  (C8_get_reply [some 87, some 10] zeroBuf).1 [87] (by decide) (by decide)

/-- C8 (counterexample): a lone byte 'A' with no terminator before the
timeout returns a non-NULL line (claim demands NULL); on a zeroed buffer
the line is "A", but after a stale "WIFI GOT IP" reply it is
"AIFI GOT IP" — the accumulation extended into the stale tail. -/
theorem C8_counterexample :
    replyScanNoCap [some 65] [] = ReplyScan.timeoutWith [65] ∧
    get_reply_loop [some 65] (wrb zeroBuf 0 0) 0 = some [65] ∧
    get_reply_loop [some 65] (wrb zeroBuf 0 0) 0 ≠ none ∧
    get_reply_loop [some 65] (wrb staleWifi 0 0) 0 =
      some [65, 73, 70, 73, 32, 71, 79, 84, 32, 73, 80] := by decide

/-- C9: if the prompt character '>' is never read during the 10 polls of
the retry budget, the `await_connected` chain ends by invoking
`close_session`, and `esp_at_receive` is never installed (Bridging is
never reached). -/
theorem C9_prompt_timeout (reads : Nat → Int)
    (h : ∀ k, k < 10 → reads k ≠ 62) :
    await_connected_run reads 0 10 = ConnOutcome.closed :=
  await_no_prompt reads 10 0 (by intro j hj; simpa using h j hj)

/-- C9 witness: a stream that always reports no data exhausts the budget
and closes the session. -/
theorem C9_prompt_timeout_witness :
    await_connected_run (fun _ => (-1 : Int)) 0 10 = ConnOutcome.closed := by
  apply C9_prompt_timeout
  intro k hk
  decide

/-- C10: in the post-replay lockout state (`cmd = 0`, `s ≠ NULL`) every
byte — registered first bytes 'C', '+', 'W' included — is inserted
directly into the ring buffer; a CR or LF byte (itself still inserted)
resets the scanner, after which a registered first byte opens a fresh
candidate again. -/
theorem C10_lockout (st : ScanState) (x : Nat × Nat) (hcmd : st.cmd = 0)
    (hs : st.s = some x) (c : Nat) :
    esp_at_receive st c =
      (if c = ASCII_CR ∨ c = ASCII_LF then ⟨⟨0, none⟩, [c], 0⟩
       else ⟨st, [c], 0⟩) ∧
    ∀ b, (b = 67 ∨ b = 43 ∨ b = 87) →
      esp_at_receive ⟨0, none⟩ b = ⟨⟨patOf b, some (patOf b, 0)⟩, [], 0⟩ := by
  refine ⟨receive_pass hcmd (by simp [hs]), ?_⟩
  intro b hb
  exact receive_open rfl hb

/-- C10 witness: in lockout state a 'C' is inserted directly; after a reset
a 'C' opens a candidate again. -/
theorem C10_lockout_witness :
    esp_at_receive ⟨0, some (1, 1)⟩ 67 = ⟨⟨0, some (1, 1)⟩, [67], 0⟩ ∧
    esp_at_receive ⟨0, none⟩ 67 = ⟨⟨1, some (1, 0)⟩, [], 0⟩ := by
  have h := C10_lockout ⟨0, some (1, 1)⟩ (1, 1) rfl rfl 67
  constructor
  · rw [h.1]
    decide
  · rw [h.2 67 (Or.inl rfl)]
    decide

end EspAt
